import Mathlib

/-
  Verification of the citnames_rs core (Bear's compilation-database generator,
  Rust reimplementation): the recognition engine (configured compiler matching),
  semantic-to-entry expansion, and the duplicate/content filter.

  The Rust code is shallowly embedded: PathBuf/OsString values are modelled as a
  raw text string together with a flag recording whether the underlying OS string
  is valid UTF-8 (conversion to a plain string fails exactly when it is not).
  String primitives used by the code (starts_with, rsplit_once, path components)
  are re-implemented by structural recursion over the character list so that all
  definitions evaluate inside the kernel.
-/

namespace Citnames

/-- Rust Result, with the value type first as in the source. -/
inductive Result (t e : Type) where
  | Ok (val : t)
  | Err (err : e)
deriving DecidableEq

/-- Model of Rust PathBuf / OsString: the textual content plus a flag telling
whether the OS string is valid UTF-8 (into_string succeeds iff it is). For a
non-UTF-8 path the text field is a lossy stand-in. -/
structure OsPath where
  text : String
  utf8 : Bool
deriving DecidableEq

/-- PathBuf::from on a Rust String: always valid UTF-8. -/
def OsPath.ofString (s : String) : OsPath := { text := s, utf8 := true }

/-- The empty path, used as a getD default. -/
def OsPath.empty : OsPath := { text := "", utf8 := true }

/-- First character test, modelling str::starts_with with a one-character
pattern (structural, so it evaluates in the kernel). -/
def strStartsWith (s : String) (c : Char) : Bool :=
  match s.data with
  | [] => false
  | d :: _ => d = c

/-- Split a character list on a separator character; always returns at least
one (possibly empty) group. -/
def splitAll (c : Char) : List Char → List (List Char)
  | [] => [[]]
  | d :: rest =>
    if d = c then [] :: splitAll c rest
    else
      match splitAll c rest with
      | [] => [[d]]
      | g :: gs => (d :: g) :: gs

/-- Split a string on a separator character. -/
def splitOnChar (s : String) (c : Char) : List String :=
  (splitAll c s.data).map String.mk

/-- The extension after the last dot, modelling str::rsplit_once('.'):
none when the string has no dot at all. -/
def extensionOf (s : String) : Option String :=
  match splitOnChar s '.' with
  | [] => none
  | [_] => none
  | parts => parts.getLast?

/-- The fixed, case-sensitive extension table from tools/matchers/source.rs. -/
def EXTENSIONS : List String :=
  ["h", "hh", "H", "hp", "hxx", "hpp", "HPP", "h++", "tcc",
   "c", "C",
   "cc", "CC", "c++", "C++", "cxx", "cpp", "cp",
   "cu",
   "m", "mi", "mm", "M", "mii",
   "i", "ii",
   "s", "S", "sx", "asm",
   "f", "for", "ftn", "F", "FOR", "fpp", "FPP", "FTN",
   "f90", "f95", "f03", "f08", "F90", "F95", "F03", "F08",
   "go",
   "brig",
   "d", "di", "dd",
   "ads", "abd"]

/-- looks_like_a_source_file from tools/matchers/source.rs: unix flags (leading
dash) and windows flags (leading slash) are never sources; otherwise the text
after the last dot must be a known extension. -/
def looks_like_a_source_file (argument : String) : Bool :=
  if strStartsWith argument '-' then false
  else if strStartsWith argument '/' then false
  else
    match extensionOf argument with
    | some ext => decide (ext ∈ EXTENSIONS)
    | none => false

/-- One observed process invocation (execution.rs). -/
structure Execution where
  executable : OsPath
  arguments : List String
  working_dir : OsPath
  environment : List (String × String)
deriving DecidableEq

/-- One configured compiler to recognize (configuration.rs). -/
structure CompilerToRecognize where
  executable : OsPath
  flags_to_add : List String
  flags_to_remove : List String
deriving DecidableEq

/-- The compiler-call semantic (tools.rs). -/
inductive CompilerCall where
  | Query
  | Preprocess
  | Compile (working_dir : OsPath) (compiler : OsPath) (flags : List String)
            (sources : List OsPath) (output : Option OsPath)
deriving DecidableEq

/-- An executed command semantic (tools.rs). -/
inductive Semantic where
  | Compiler (call : CompilerCall)
  | UnixCommand
  | BuildCommand
deriving DecidableEq

/-- The outcome of a recognizer (tools.rs). -/
inductive RecognitionResult where
  | Recognized (result : Result Semantic String)
  | NotRecognized
deriving DecidableEq

/-- The argument scan of Configured::recognize: skip arguments on the
flags_to_remove list, classify the rest as sources or flags, preserving
relative order within each group. -/
def collect (config : CompilerToRecognize) : List String → List String × List OsPath
  | [] => ([], [])
  | argument :: rest =>
    if argument ∈ config.flags_to_remove then collect config rest
    else if looks_like_a_source_file argument then
      ((collect config rest).1, OsPath.ofString argument :: (collect config rest).2)
    else
      (argument :: (collect config rest).1, (collect config rest).2)

/-- Configured::recognize (tools/configured.rs): on an exact executable match,
scan the arguments after the first, extend the retained flags with
flags_to_add, and fail when no source was found. -/
def Configured.recognize (config : CompilerToRecognize) (x : Execution) : RecognitionResult :=
  if x.executable = config.executable then
    if (collect config (x.arguments.drop 1)).2.isEmpty then
      .Recognized (.Err "source file is not found")
    else
      .Recognized (.Ok (.Compiler (.Compile x.working_dir x.executable
        ((collect config (x.arguments.drop 1)).1 ++ config.flags_to_add)
        (collect config (x.arguments.drop 1)).2
        none)))
  else
    .NotRecognized

/-- Whether the path has a root, modelling Path::is_absolute on unix. -/
def OsPath.isAbsolute (p : OsPath) : Bool := strStartsWith p.text '/'

/-- The normal components of a path: the text split on the separator with
empty and current-directory pieces dropped, as Rust's Components iterator
yields them for the paths handled here. -/
def OsPath.components (p : OsPath) : List String :=
  (splitOnChar p.text '/').filter (fun c => decide (c ≠ "" ∧ c ≠ "."))

/-- Join components with the separator. -/
def joinComps : List String → String
  | [] => ""
  | c :: rest => if rest.isEmpty then c else c ++ "/" ++ joinComps rest

/-- Render an absolute path from its components. -/
def renderAbsolute (comps : List String) : String := "/" ++ joinComps comps

/-- Resolve parent-directory components lexically, clamped at the root, as
path_absolutize does for paths under an absolute root. -/
def dedotAux : List String → List String → List String
  | acc, [] => acc.reverse
  | acc, c :: rest =>
    if c = ".." then dedotAux acc.tail rest else dedotAux (c :: acc) rest

/-- Lexical normalization of a component list. -/
def dedot (comps : List String) : List String := dedotAux [] comps

/-- into_abspath from semantic.rs: an absolute path is normalized in place
(Absolutize::absolutize), a relative path is resolved against the root
(Absolutize::absolutize_from). The io::Error case never arises for the lexical
resolution performed here, so the function is total. -/
def into_abspath (path : OsPath) (root : OsPath) : OsPath :=
  if path.isAbsolute then
    { text := renderAbsolute (dedot path.components), utf8 := path.utf8 }
  else
    { text := renderAbsolute (dedot (root.components ++ path.components)),
      utf8 := root.utf8 && path.utf8 }

/-- into_abspath_opt from semantic.rs. -/
def into_abspath_opt (path : Option OsPath) (root : OsPath) : Option OsPath :=
  path.map (fun v => into_abspath v root)

/-- The conversion error type of semantic.rs. -/
inductive ConvError where
  | IoError
  | OsString
deriving DecidableEq

/-- into_string from semantic.rs: OsString::into_string, which fails exactly
when the path is not valid UTF-8. -/
def into_string (path : OsPath) : Result String ConvError :=
  if path.utf8 then .Ok path.text else .Err ConvError.OsString

/-- One compilation-database record (json_compilation_db::Entry). -/
structure Entry where
  directory : OsPath
  file : OsPath
  arguments : List String
  output : Option OsPath
deriving DecidableEq

/-- Default entry used with List.getD. -/
def defaultEntry : Entry :=
  { directory := OsPath.empty, file := OsPath.empty, arguments := [], output := none }

/-- The optional "-o output" argument pair of the reconstructed command. -/
def outputArgs : Option OsPath → Result (List String) ConvError
  | some file =>
    match into_string file with
    | .Ok s => .Ok ["-o", s]
    | .Err e => .Err e
  | none => .Ok []

/-- The entry built for one source inside TryFrom<CompilerCall> for Vec<Entry>:
arguments are the compiler, the flags, the optional -o/output pair, and the
original source text; file and output are resolved against the working
directory. -/
def entryFor (working_dir compiler : OsPath) (flags : List String)
    (output : Option OsPath) (source : OsPath) : Result Entry ConvError :=
  match into_string compiler with
  | .Err e => .Err e
  | .Ok compilerText =>
    match outputArgs output with
    | .Err e => .Err e
    | .Ok outArgs =>
      match into_string source with
      | .Err e => .Err e
      | .Ok sourceText =>
        .Ok { file := into_abspath source working_dir,
              directory := working_dir,
              output := into_abspath_opt output working_dir,
              arguments := compilerText :: (flags ++ (outArgs ++ [sourceText])) }

/-- Iterator::collect over Result: stop at the first error, otherwise gather
all values in order. -/
def collectResults (f : α → Result β ε) : List α → Result (List β) ε
  | [] => .Ok []
  | a :: rest =>
    match f a with
    | .Err e => .Err e
    | .Ok b =>
      match collectResults f rest with
      | .Err e => .Err e
      | .Ok bs => .Ok (b :: bs)

/-- TryFrom<CompilerCall> for Vec<Entry> (semantic.rs): a Compile fans out to
one entry per source; every other call converts to the empty vector. -/
def tryFromCompilerCall : CompilerCall → Result (List Entry) ConvError
  | .Compile working_dir compiler flags sources output =>
    collectResults (entryFor working_dir compiler flags output) sources
  | _ => .Ok []

/-- The part of a reconstructed argument vector shared by all entries of one
Compile: the compiler text, the flags, and the optional -o/output pair. -/
def outTextArgs : Option OsPath → List String
  | some o => ["-o", o.text]
  | none => []

/-- The shared argument part as plain text. -/
def sharedArgs (c : OsPath) (fl : List String) (out : Option OsPath) : List String :=
  c.text :: (fl ++ outTextArgs out)

/-- ExcludeOr (tools.rs): a deny list of executables plus a delegate tool,
modelled as its recognize function. -/
structure ExcludeOr where
  excludes : List OsPath
  or : Execution → RecognitionResult

/-- ExcludeOr::recognize: short-circuit to NotRecognized on a deny-list match,
delegate otherwise. -/
def ExcludeOr.recognize (t : ExcludeOr) (x : Execution) : RecognitionResult :=
  if x.executable ∈ t.excludes then .NotRecognized else t.or x

/-- The duplicate-filter policy (configuration.rs). -/
inductive DuplicateFilterFields where
  | FileOnly
  | FileAndOutputOnly
  | All
deriving DecidableEq

/-- The duplicate key of an entry. The Rust code hashes the selected fields
into a u64 with DefaultHasher; the key is modelled as the selected field tuple
itself, so that equal keys correspond exactly to equal selected fields. -/
inductive DupKey where
  | source (file : OsPath)
  | sourceAndOutput (file : OsPath) (output : Option OsPath)
  | all (file : OsPath) (directory : OsPath) (arguments : List String)
deriving DecidableEq

/-- DuplicateFilterFields::hash (filter.rs): which fields feed the key. -/
def DuplicateFilterFields.hash : DuplicateFilterFields → Entry → DupKey
  | .FileOnly, e => .source e.file
  | .FileAndOutputOnly, e => .sourceAndOutput e.file e.output
  | .All, e => .all e.file e.directory e.arguments

/-- The stateful duplicate predicate of filter.rs evaluated over a stream:
the decision for each entry in order, threading the have_seen set (a key is
inserted when it is first seen, i.e. when the entry passes). -/
def dupDecisionsFrom (p : DuplicateFilterFields) (seen : List DupKey) :
    List Entry → List Bool
  | [] => []
  | e :: rest =>
    if p.hash e ∈ seen then false :: dupDecisionsFrom p seen rest
    else true :: dupDecisionsFrom p (p.hash e :: seen) rest

/-- The decisions of the duplicate predicate over a stream, from a fresh run. -/
def dupDecisions (p : DuplicateFilterFields) (es : List Entry) : List Bool :=
  dupDecisionsFrom p [] es

/-- The entries retained by the duplicate predicate over a stream. -/
def dupRetainedFrom (p : DuplicateFilterFields) (seen : List DupKey) :
    List Entry → List Entry
  | [] => []
  | e :: rest =>
    if p.hash e ∈ seen then dupRetainedFrom p seen rest
    else e :: dupRetainedFrom p (p.hash e :: seen) rest

/-- The entries retained by the duplicate predicate, from a fresh run. -/
def dupRetained (p : DuplicateFilterFields) (es : List Entry) : List Entry :=
  dupRetainedFrom p [] es

/-- The content configuration (configuration.rs). -/
structure Content where
  include_only_existing_source : Option Bool
  duplicate_filter_fields : Option DuplicateFilterFields
  paths_to_include : List OsPath
  paths_to_exclude : List OsPath

/-- Whether the first component list is an initial segment of the second. -/
def isInitialSegment : List String → List String → Bool
  | [], _ => true
  | _, [] => false
  | a :: as_, b :: bs => decide (a = b) && isInitialSegment as_ bs

/-- Whether a file lies under a configured path: same absoluteness and the
configured path's components lead the file's components. -/
def isUnder (p file : OsPath) : Bool :=
  decide (p.isAbsolute = file.isAbsolute) && isInitialSegment p.components file.components

/-- Modelled from the spec: the body of the Content-to-predicate conversion in
filter.rs is an unfinished todo, so the path-inclusion criterion follows the
spec text. A non-empty include list requires the entry's file to be under one
of the listed paths; a non-empty exclude list forbids the file to be under any
listed path; when include_only_existing_source is set (it defaults to false)
the file must exist on disk, queried through the given oracle. -/
def pathInclusionPass (cfg : Content) (existsOnDisk : OsPath → Bool) (e : Entry) : Bool :=
  (cfg.paths_to_include.isEmpty || cfg.paths_to_include.any (fun p => isUnder p e.file))
  && !(cfg.paths_to_exclude.any (fun p => isUnder p e.file))
  && (match cfg.include_only_existing_source with
      | some true => existsOnDisk e.file
      | _ => true)

/-- The duplicate policy of a content configuration; the unset case takes the
all-fields policy (the default choice is irrelevant to the stated claims). -/
def Content.policy (cfg : Content) : DuplicateFilterFields :=
  cfg.duplicate_filter_fields.getD DuplicateFilterFields.All

/-- Modelled from the spec: the combined content filter over the entry stream.
Each entry is evaluated once, in stream order; the duplicate criterion and the
path-inclusion criterion combine with logical AND, and the entry's key is
recorded as seen. -/
def contentDecisionsFrom (cfg : Content) (existsOnDisk : OsPath → Bool)
    (seen : List DupKey) : List Entry → List Bool
  | [] => []
  | e :: rest =>
    (decide (cfg.policy.hash e ∉ seen) && pathInclusionPass cfg existsOnDisk e)
      :: contentDecisionsFrom cfg existsOnDisk (cfg.policy.hash e :: seen) rest

/-- The combined content filter decisions, from a fresh run. -/
def contentDecisions (cfg : Content) (existsOnDisk : OsPath → Bool)
    (es : List Entry) : List Bool :=
  contentDecisionsFrom cfg existsOnDisk [] es

/-- The literal reading of path joining used by the specification text: the
working directory, a separator, and the relative path, with no normalization
(Rust Path::join for a relative argument). Kept to compare the specified
behaviour against the implemented resolution. -/
def specJoinedPath (root p : OsPath) : OsPath :=
  { text := root.text ++ "/" ++ p.text, utf8 := root.utf8 && p.utf8 }

/-- An existence oracle that reports every path as present. -/
def oracleTrue : OsPath → Bool := fun _ => true

/-- The configured compiler of the spec's example scenario. -/
def cfgC1 : CompilerToRecognize :=
  { executable := OsPath.ofString "/usr/bin/something",
    flags_to_add := ["-Wall"],
    flags_to_remove := ["-I."] }

/-- The execution of the spec's example scenario. -/
def exC1 : Execution :=
  { executable := OsPath.ofString "/usr/bin/something",
    arguments := ["something", "-Dthis=that", "-I.", "source.c", "-o", "source.c.o"],
    working_dir := OsPath.ofString "/home/user",
    environment := [] }

/-- The compiler call the example scenario recognizes. -/
def callC1 : CompilerCall :=
  .Compile (OsPath.ofString "/home/user") (OsPath.ofString "/usr/bin/something")
    ["-Dthis=that", "-o", "source.c.o", "-Wall"]
    [OsPath.ofString "source.c"] none

/-- The entry the example scenario expands to. -/
def entC1 : Entry :=
  { directory := OsPath.ofString "/home/user",
    file := OsPath.ofString "/home/user/source.c",
    arguments := ["/usr/bin/something", "-Dthis=that", "-o", "source.c.o", "-Wall", "source.c"],
    output := none }

/-- A configuration whose flags_to_remove holds an argument that is also
classifiable as a source file. -/
def cfgC2 : CompilerToRecognize :=
  { executable := OsPath.ofString "/usr/bin/cc",
    flags_to_add := [],
    flags_to_remove := ["bad.c"] }

/-- An execution whose only candidate source is on the flags_to_remove list. -/
def exC2 : Execution :=
  { executable := OsPath.ofString "/usr/bin/cc",
    arguments := ["cc", "bad.c"],
    working_dir := OsPath.ofString "/home",
    environment := [] }

/-- An execution with one removable and one surviving source argument. -/
def exC2w : Execution :=
  { executable := OsPath.ofString "/usr/bin/cc",
    arguments := ["cc", "bad.c", "good.c", "-O2"],
    working_dir := OsPath.ofString "/home",
    environment := [] }

/-- A content configuration with include, exclude and existence settings. -/
def cfgC3 : Content :=
  { include_only_existing_source := some true,
    duplicate_filter_fields := some DuplicateFilterFields.FileOnly,
    paths_to_include := [OsPath.ofString "/home"],
    paths_to_exclude := [OsPath.ofString "/home/tests"] }

/-- An entry under the include path and outside the exclude path. -/
def entC3 : Entry :=
  { directory := OsPath.ofString "/home",
    file := OsPath.ofString "/home/src/a.c",
    arguments := ["cc", "a.c"],
    output := none }

/-- The compile of the repository's own multi-source expansion test:
one absolute and one parent-relative source. -/
def callC4 : CompilerCall :=
  .Compile (OsPath.ofString "/home/user") (OsPath.ofString "clang") ["-Wall"]
    [OsPath.ofString "/tmp/source1.c", OsPath.ofString "../source2.c"] none

/-- The first entry callC4 expands to. -/
def entC4a : Entry :=
  { directory := OsPath.ofString "/home/user",
    file := OsPath.ofString "/tmp/source1.c",
    arguments := ["clang", "-Wall", "/tmp/source1.c"],
    output := none }

/-- The second entry callC4 expands to: the parent component is resolved
away, so the file is not the textual join of the working directory and the
relative source. -/
def entC4b : Entry :=
  { directory := OsPath.ofString "/home/user",
    file := OsPath.ofString "/home/source2.c",
    arguments := ["clang", "-Wall", "../source2.c"],
    output := none }

/-- Two entries sharing a file but differing in arguments. -/
def entC5a : Entry :=
  { directory := OsPath.ofString "/home",
    file := OsPath.ofString "/home/a.c",
    arguments := ["cc", "a.c"],
    output := none }

/-- Same file as entC5a, different arguments. -/
def entC5b : Entry :=
  { directory := OsPath.ofString "/home",
    file := OsPath.ofString "/home/a.c",
    arguments := ["cc", "-O2", "a.c"],
    output := none }

/-- A delegate that recognizes everything as a compiler query. -/
def delegateC6 : Execution → RecognitionResult :=
  fun _ => .Recognized (.Ok (.Compiler .Query))

/-- An ExcludeOr with one denied executable over that delegate. -/
def excludeC6 : ExcludeOr :=
  { excludes := [OsPath.ofString "/usr/bin/cc"], or := delegateC6 }

/-- An execution whose executable is on the deny list. -/
def exC6a : Execution :=
  { executable := OsPath.ofString "/usr/bin/cc",
    arguments := ["cc", "a.c"],
    working_dir := OsPath.ofString "/home",
    environment := [] }

/-- An execution whose executable is not on the deny list. -/
def exC6b : Execution :=
  { executable := OsPath.ofString "/usr/bin/gcc",
    arguments := ["gcc", "a.c"],
    working_dir := OsPath.ofString "/home",
    environment := [] }

/-- A configured compiler used by the no-source witness. -/
def cfgC7 : CompilerToRecognize :=
  { executable := OsPath.ofString "/usr/bin/something",
    flags_to_add := ["-Wall"],
    flags_to_remove := ["-I."] }

/-- A configured compiler used by the absolute-argument witness. -/
def cfgC10 : CompilerToRecognize :=
  { executable := OsPath.ofString "/usr/bin/something",
    flags_to_add := [],
    flags_to_remove := [] }

/-- A matching execution that carries no source-file argument. -/
def exC7 : Execution :=
  { executable := OsPath.ofString "/usr/bin/something",
    arguments := ["something", "--help"],
    working_dir := OsPath.ofString "/home/user",
    environment := [] }

/-- A compile naming the same source twice. -/
def callC8 : CompilerCall :=
  .Compile (OsPath.ofString "/home") (OsPath.ofString "cc") []
    [OsPath.ofString "a.c", OsPath.ofString "a.c"] none

/-- The entry produced for each of the two identical sources of callC8. -/
def entC8 : Entry :=
  { directory := OsPath.ofString "/home",
    file := OsPath.ofString "/home/a.c",
    arguments := ["cc", "a.c"],
    output := none }

/-- The first entry of the fan-out witness: the two-source compile of cc with
flag -O1 and output out.o in /home, expanded at source a.c. -/
def entC8w0 : Entry :=
  { directory := OsPath.ofString "/home",
    file := OsPath.ofString "/home/a.c",
    arguments := ["cc", "-O1", "-o", "out.o", "a.c"],
    output := some (OsPath.ofString "/home/out.o") }

/-- The second entry of the fan-out witness, expanded at source b.c. -/
def entC8w1 : Entry :=
  { directory := OsPath.ofString "/home",
    file := OsPath.ofString "/home/b.c",
    arguments := ["cc", "-O1", "-o", "out.o", "b.c"],
    output := some (OsPath.ofString "/home/out.o") }

/-- A compiler path whose OS string is not valid UTF-8. -/
def badCompilerC9 : OsPath := { text := "cc", utf8 := false }

/-- A compile with the non-representable compiler and no sources at all. -/
def callC9 : CompilerCall :=
  .Compile (OsPath.ofString "/home") badCompilerC9 [] [] none

/-- A source path whose OS string is not valid UTF-8. -/
def badSourceC9 : OsPath := { text := "bad.c", utf8 := false }

/-- The source list of the all-or-nothing witness: one convertible source
followed by a non-representable one. -/
def sourcesC9 : List OsPath := [OsPath.ofString "good.c", badSourceC9]

/-- A matching execution whose arguments after the first all begin with a
dash or a slash. -/
def exC10 : Execution :=
  { executable := OsPath.ofString "/usr/bin/something",
    arguments := ["something", "-Wall", "/tmp/source1.c", "-o", "/tmp/a.o"],
    working_dir := OsPath.ofString "/home/user",
    environment := [] }

/-- An argument becomes a source: it survives flags_to_remove and is
classified as a source file. -/
def keptSource (config : CompilerToRecognize) (a : String) : Bool :=
  decide (a ∉ config.flags_to_remove) && looks_like_a_source_file a

/-- An argument becomes a flag: it survives flags_to_remove and is not
classified as a source file. -/
def keptFlag (config : CompilerToRecognize) (a : String) : Bool :=
  decide (a ∉ config.flags_to_remove) && !looks_like_a_source_file a

theorem collect_spec (config : CompilerToRecognize) :
    ∀ args : List String,
      (collect config args).1 = args.filter (keptFlag config) ∧
      (collect config args).2 = (args.filter (keptSource config)).map OsPath.ofString := by
  intro args
  induction args with
  | nil => simp [collect]
  | cons a rest ih =>
    by_cases hr : a ∈ config.flags_to_remove
    · simpa [collect, hr, List.filter_cons, keptFlag, keptSource] using ih
    · by_cases hs : looks_like_a_source_file a
      · simp [collect, hr, hs, List.filter_cons, keptFlag, keptSource, ih.1, ih.2]
      · simp [collect, hr, hs, List.filter_cons, keptFlag, keptSource, ih.1, ih.2]

theorem recognize_err_of_no_source (config : CompilerToRecognize) (x : Execution)
    (hexe : x.executable = config.executable)
    (hnone : (x.arguments.drop 1).filter (keptSource config) = []) :
    Configured.recognize config x = .Recognized (.Err "source file is not found") := by
  have hc := (collect_spec config (x.arguments.drop 1)).2
  rw [hnone] at hc
  rw [List.drop_one] at hc
  simp [Configured.recognize, hexe, hc]

theorem recognize_ok_of_source (config : CompilerToRecognize) (x : Execution)
    (hexe : x.executable = config.executable)
    (hsome : (x.arguments.drop 1).filter (keptSource config) ≠ []) :
    Configured.recognize config x = .Recognized (.Ok (.Compiler (.Compile
      x.working_dir x.executable
      ((x.arguments.drop 1).filter (keptFlag config) ++ config.flags_to_add)
      (((x.arguments.drop 1).filter (keptSource config)).map OsPath.ofString)
      none))) := by
  have hc := collect_spec config (x.arguments.drop 1)
  rw [List.drop_one] at hc
  have hsome' := hsome
  rw [List.drop_one] at hsome'
  simp [Configured.recognize, hexe, hc.1, hc.2, List.drop_one, hsome']

theorem into_string_ok (p : OsPath) (v : String) (h : into_string p = .Ok v) :
    p.utf8 = true ∧ v = p.text := by
  by_cases hu : p.utf8 = true
  · refine ⟨hu, ?_⟩
    simp [into_string, hu] at h
    exact h.symm
  · simp [into_string, hu] at h

theorem outputArgs_ok (out : Option OsPath) (l : List String)
    (h : outputArgs out = .Ok l) : l = outTextArgs out := by
  cases out with
  | none =>
    simp [outputArgs] at h
    simp [outTextArgs, h]
  | some o =>
    cases ho : into_string o with
    | Ok v =>
      obtain ⟨_, hv⟩ := into_string_ok o v ho
      simp [outputArgs, ho] at h
      simp [outTextArgs, ← h, hv]
    | Err e => simp [outputArgs, ho] at h

theorem entryFor_ok_spec (wd c : OsPath) (fl : List String) (out : Option OsPath)
    (s : OsPath) (e : Entry) (h : entryFor wd c fl out s = .Ok e) :
    e = { file := into_abspath s wd,
          directory := wd,
          output := into_abspath_opt out wd,
          arguments := sharedArgs c fl out ++ [s.text] } := by
  cases hc : into_string c with
  | Err er => simp [entryFor, hc] at h
  | Ok cv =>
    cases hov : outputArgs out with
    | Err er => simp [entryFor, hc, hov] at h
    | Ok ol =>
      cases hs : into_string s with
      | Err er => simp [entryFor, hc, hov, hs] at h
      | Ok sv =>
        obtain ⟨_, hcv⟩ := into_string_ok c cv hc
        obtain ⟨_, hsv⟩ := into_string_ok s sv hs
        have hol := outputArgs_ok out ol hov
        simp [entryFor, hc, hov, hs] at h
        simp [← h, hcv, hsv, hol, sharedArgs]

theorem collectResults_ok_spec (f : α → Result β ε) (dA : α) (dB : β) :
    ∀ (l : List α) (bs : List β), collectResults f l = .Ok bs →
      bs.length = l.length ∧
      ∀ i, i < l.length → f (l.getD i dA) = .Ok (bs.getD i dB) := by
  intro l
  induction l with
  | nil =>
    intro bs h
    simp [collectResults] at h
    simp [← h]
  | cons a rest ih =>
    intro bs h
    cases hfa : f a with
    | Err e => simp [collectResults, hfa] at h
    | Ok b =>
      cases hrest : collectResults f rest with
      | Err e => simp [collectResults, hfa, hrest] at h
      | Ok bs' =>
        simp [collectResults, hfa, hrest] at h
        obtain ⟨hlen, hget⟩ := ih bs' hrest
        subst h
        constructor
        · simp [hlen]
        · intro i hi
          cases i with
          | zero => simpa using hfa
          | succ n =>
            have hn : n < rest.length := by simpa using hi
            simpa using hget n hn

theorem tryFrom_ok_spec (wd c : OsPath) (fl : List String) (ss : List OsPath)
    (out : Option OsPath) (es : List Entry)
    (h : tryFromCompilerCall (.Compile wd c fl ss out) = .Ok es) :
    es.length = ss.length ∧
    ∀ i, i < ss.length →
      es.getD i defaultEntry =
        { file := into_abspath (ss.getD i OsPath.empty) wd,
          directory := wd,
          output := into_abspath_opt out wd,
          arguments := sharedArgs c fl out ++ [(ss.getD i OsPath.empty).text] } := by
  have h' : collectResults (entryFor wd c fl out) ss = .Ok es := h
  obtain ⟨hlen, hget⟩ :=
    collectResults_ok_spec (entryFor wd c fl out) OsPath.empty defaultEntry ss es h'
  refine ⟨hlen, ?_⟩
  intro i hi
  exact entryFor_ok_spec wd c fl out (ss.getD i OsPath.empty) (es.getD i defaultEntry)
    (hget i hi)

theorem into_string_cases (p : OsPath) :
    into_string p = .Ok p.text ∨
      (p.utf8 = false ∧ into_string p = .Err ConvError.OsString) := by
  by_cases hu : p.utf8 = true
  · exact Or.inl (by simp [into_string, hu])
  · exact Or.inr ⟨by simpa using hu, by simp [into_string, hu]⟩

theorem outputArgs_cases (out : Option OsPath) :
    outputArgs out = .Ok (outTextArgs out) ∨
      outputArgs out = .Err ConvError.OsString := by
  cases out with
  | none => exact Or.inl (by simp [outputArgs, outTextArgs])
  | some o =>
    rcases into_string_cases o with h | ⟨_, h⟩
    · exact Or.inl (by simp [outputArgs, outTextArgs, h])
    · exact Or.inr (by simp [outputArgs, h])

theorem into_string_err (p : OsPath) (e : ConvError) (h : into_string p = .Err e) :
    e = ConvError.OsString := by
  by_cases hu : p.utf8 = true
  · simp [into_string, hu] at h
  · simp [into_string, hu] at h
    exact h.symm

theorem outputArgs_err (out : Option OsPath) (e : ConvError)
    (h : outputArgs out = .Err e) : e = ConvError.OsString := by
  cases out with
  | none => simp [outputArgs] at h
  | some o =>
    cases ho : into_string o with
    | Ok v => simp [outputArgs, ho] at h
    | Err er =>
      simp [outputArgs, ho] at h
      rw [h] at ho
      exact into_string_err o e ho

theorem entryFor_err_shape (wd c : OsPath) (fl : List String) (out : Option OsPath)
    (s : OsPath) (e' : ConvError) (h : entryFor wd c fl out s = .Err e') :
    e' = ConvError.OsString := by
  cases hc : into_string c with
  | Err er =>
    simp [entryFor, hc] at h
    rw [h] at hc
    exact into_string_err c e' hc
  | Ok cv =>
    cases hov : outputArgs out with
    | Err er =>
      simp [entryFor, hc, hov] at h
      rw [h] at hov
      exact outputArgs_err out e' hov
    | Ok ol =>
      cases hs : into_string s with
      | Err er =>
        simp [entryFor, hc, hov, hs] at h
        rw [h] at hs
        exact into_string_err s e' hs
      | Ok sv => simp [entryFor, hc, hov, hs] at h

theorem entryFor_cases (wd c : OsPath) (fl : List String) (out : Option OsPath)
    (s : OsPath) :
    (∃ e, entryFor wd c fl out s = .Ok e) ∨
      entryFor wd c fl out s = .Err ConvError.OsString := by
  cases he : entryFor wd c fl out s with
  | Ok e => exact Or.inl ⟨e, rfl⟩
  | Err er => exact Or.inr (by rw [entryFor_err_shape wd c fl out s er he])

theorem entryFor_err (wd c : OsPath) (fl : List String) (out : Option OsPath)
    (s : OsPath)
    (h : c.utf8 = false ∨ (∃ o, out = some o ∧ o.utf8 = false) ∨ s.utf8 = false) :
    entryFor wd c fl out s = .Err ConvError.OsString := by
  rcases h with hc | ho | hs
  · simp [entryFor, into_string, hc]
  · obtain ⟨o, rfl, ho⟩ := ho
    have hoa : outputArgs (some o) = .Err ConvError.OsString := by
      simp [outputArgs, into_string, ho]
    rcases into_string_cases c with hc | ⟨_, hc⟩
    · simp [entryFor, hc, hoa]
    · simp [entryFor, hc]
  · have hsa : into_string s = .Err ConvError.OsString := by
      simp [into_string, hs]
    rcases into_string_cases c with hc | ⟨_, hc⟩
    · rcases outputArgs_cases out with hov | hov
      · simp [entryFor, hc, hov, hsa]
      · simp [entryFor, hc, hov]
    · simp [entryFor, hc]

theorem dupDecisionsFrom_spec (p : DuplicateFilterFields) :
    ∀ (es : List Entry) (seen : List DupKey) (i : Nat), i < es.length →
      ((dupDecisionsFrom p seen es).getD i false = true ↔
        (p.hash (es.getD i defaultEntry) ∉ seen ∧
         p.hash (es.getD i defaultEntry) ∉ (es.take i).map p.hash)) := by
  intro es
  induction es with
  | nil =>
    intro seen i h
    simp at h
  | cons e rest ih =>
    intro seen i h
    by_cases hk : p.hash e ∈ seen
    · cases i with
      | zero => simp [dupDecisionsFrom, hk]
      | succ n =>
        have hn : n < rest.length := by simpa using h
        rw [show dupDecisionsFrom p seen (e :: rest) = false :: dupDecisionsFrom p seen rest by
          simp [dupDecisionsFrom, hk]]
        simp only [List.getD_cons_succ, List.take_succ_cons, List.map_cons, List.mem_cons]
        rw [ih seen n hn]
        constructor
        · rintro ⟨h1, h2⟩
          exact ⟨h1, fun hor => hor.elim (fun heq => h1 (heq ▸ hk)) h2⟩
        · rintro ⟨h1, h2⟩
          exact ⟨h1, fun hm => h2 (Or.inr hm)⟩
    · cases i with
      | zero => simp [dupDecisionsFrom, hk]
      | succ n =>
        have hn : n < rest.length := by simpa using h
        rw [show dupDecisionsFrom p seen (e :: rest)
              = true :: dupDecisionsFrom p (p.hash e :: seen) rest by
          simp [dupDecisionsFrom, hk]]
        simp only [List.getD_cons_succ, List.take_succ_cons, List.map_cons, List.mem_cons]
        rw [ih (p.hash e :: seen) n hn]
        simp only [List.mem_cons]
        constructor
        · rintro ⟨h1, h2⟩
          exact ⟨fun hm => h1 (Or.inr hm), fun hor => hor.elim (fun heq => h1 (Or.inl heq)) h2⟩
        · rintro ⟨h1, h2⟩
          exact ⟨fun hor => hor.elim (fun heq => h2 (Or.inl heq)) h1, fun hm => h2 (Or.inr hm)⟩

theorem dupRetainedFrom_nodup (p : DuplicateFilterFields) :
    ∀ (es : List Entry) (seen : List DupKey),
      ((dupRetainedFrom p seen es).map p.hash).Nodup ∧
      ∀ k ∈ seen, k ∉ (dupRetainedFrom p seen es).map p.hash := by
  intro es
  induction es with
  | nil => intro seen; simp [dupRetainedFrom]
  | cons e rest ih =>
    intro seen
    by_cases hk : p.hash e ∈ seen
    · simpa [dupRetainedFrom, hk] using ih seen
    · have ihx := ih (p.hash e :: seen)
      rw [show dupRetainedFrom p seen (e :: rest)
            = e :: dupRetainedFrom p (p.hash e :: seen) rest by
        simp [dupRetainedFrom, hk]]
      constructor
      · simp only [List.map_cons, List.nodup_cons]
        exact ⟨ihx.2 (p.hash e) (by simp), ihx.1⟩
      · intro k hkseen
        simp only [List.map_cons, List.mem_cons]
        rintro (heq | hmem)
        · exact hk (heq ▸ hkseen)
        · exact ihx.2 k (by simp [hkseen]) hmem

theorem countP_le_one_of_nodup_map (f : Entry → DupKey) (k : DupKey) :
    ∀ l : List Entry, (l.map f).Nodup →
      l.countP (fun e => decide (f e = k)) ≤ 1 := by
  intro l
  induction l with
  | nil => intro _; simp
  | cons a t ih =>
    intro h
    simp only [List.map_cons, List.nodup_cons] at h
    by_cases hfa : f a = k
    · rw [List.countP_cons_of_pos _ _ (by simpa using hfa)]
      have hzero : t.countP (fun e => decide (f e = k)) = 0 := by
        rw [List.countP_eq_zero]
        intro e he
        simp only [decide_eq_true_eq]
        intro hek
        exact h.1 (by rw [hfa, ← hek]; exact List.mem_map_of_mem f he)
      omega
    · rw [List.countP_cons_of_neg _ _ (by simpa using hfa)]
      exact ih h.2

theorem contentDecisionsFrom_spec (cfg : Content) (oracle : OsPath → Bool) :
    ∀ (es : List Entry) (seen : List DupKey) (i : Nat), i < es.length →
      ((contentDecisionsFrom cfg oracle seen es).getD i false = true ↔
        (cfg.policy.hash (es.getD i defaultEntry) ∉ seen ∧
         cfg.policy.hash (es.getD i defaultEntry) ∉ (es.take i).map cfg.policy.hash ∧
         pathInclusionPass cfg oracle (es.getD i defaultEntry) = true)) := by
  intro es
  induction es with
  | nil =>
    intro seen i h
    simp at h
  | cons e rest ih =>
    intro seen i h
    cases i with
    | zero => simp [contentDecisionsFrom]
    | succ n =>
      have hn : n < rest.length := by simpa using h
      rw [show contentDecisionsFrom cfg oracle seen (e :: rest)
            = ((decide (cfg.policy.hash e ∉ seen) && pathInclusionPass cfg oracle e)
               :: contentDecisionsFrom cfg oracle (cfg.policy.hash e :: seen) rest) from rfl]
      simp only [List.getD_cons_succ, List.take_succ_cons, List.map_cons, List.mem_cons]
      rw [ih (cfg.policy.hash e :: seen) n hn]
      simp only [List.mem_cons]
      constructor
      · rintro ⟨h1, h2, h3⟩
        exact ⟨fun hm => h1 (Or.inr hm),
               fun hor => hor.elim (fun heq => h1 (Or.inl heq)) h2, h3⟩
      · rintro ⟨h1, h2, h3⟩
        exact ⟨fun hor => hor.elim (fun heq => h2 (Or.inl heq)) h1,
               fun hm => h2 (Or.inr hm), h3⟩

theorem dedotAux_no_parent :
    ∀ (l acc : List String), (∀ c ∈ l, c ≠ "..") →
      dedotAux acc l = acc.reverse ++ l := by
  intro l
  induction l with
  | nil => intro acc _; simp [dedotAux]
  | cons c rest ih =>
    intro acc h
    have hc : c ≠ ".." := h c (by simp)
    rw [show dedotAux acc (c :: rest) = dedotAux (c :: acc) rest by
      simp [dedotAux, hc]]
    rw [ih (c :: acc) (fun d hd => h d (by simp [hd]))]
    simp

theorem dedot_no_parent (l : List String) (h : ∀ c ∈ l, c ≠ "..") :
    dedot l = l := by
  simpa using dedotAux_no_parent l [] h

theorem joinComps_append :
    ∀ a b : List String, a ≠ [] → b ≠ [] →
      joinComps (a ++ b) = joinComps a ++ "/" ++ joinComps b := by
  intro a
  induction a with
  | nil => intro b h _; exact absurd rfl h
  | cons x xs ih =>
    intro b _ hb
    cases xs with
    | nil =>
      cases b with
      | nil => exact absurd rfl hb
      | cons y ys => simp [joinComps]
    | cons z zs =>
      have hxs : (z :: zs : List String) ≠ [] := by simp
      rw [show ((x :: z :: zs) ++ b) = x :: ((z :: zs) ++ b) from rfl]
      rw [show joinComps (x :: ((z :: zs) ++ b))
            = x ++ "/" ++ joinComps ((z :: zs) ++ b) by
        simp [joinComps]]
      rw [ih b hxs hb]
      rw [show joinComps (x :: z :: zs) = x ++ "/" ++ joinComps (z :: zs) by
        simp [joinComps]]
      simp [String.append_assoc]

theorem into_abspath_clean_absolute (p wd : OsPath)
    (habs : p.isAbsolute = true)
    (htext : p.text = renderAbsolute p.components)
    (hnp : ∀ c ∈ p.components, c ≠ "..") :
    into_abspath p wd = p := by
  cases p with
  | mk t u =>
    simp only [into_abspath, habs, if_pos]
    simp only [dedot_no_parent _ hnp]
    simp [← htext]

theorem into_abspath_clean_relative (p wd : OsPath)
    (hrel : p.isAbsolute = false)
    (htext : p.text = joinComps p.components)
    (hpne : p.components ≠ [])
    (hnp : ∀ c ∈ p.components, c ≠ "..")
    (hwtext : wd.text = renderAbsolute wd.components)
    (hwne : wd.components ≠ [])
    (hnw : ∀ c ∈ wd.components, c ≠ "..") :
    into_abspath p wd = specJoinedPath wd p := by
  have hnall : ∀ c ∈ wd.components ++ p.components, c ≠ ".." := by
    intro c hc
    rcases List.mem_append.mp hc with h | h
    · exact hnw c h
    · exact hnp c h
  simp only [into_abspath, hrel, Bool.false_eq_true, if_false]
  simp only [dedot_no_parent _ hnall]
  simp only [specJoinedPath, renderAbsolute]
  rw [joinComps_append wd.components p.components hwne hpne]
  rw [hwtext, htext]
  simp [renderAbsolute, String.append_assoc]

/-- C1: the example scenario. The execution with executable
"/usr/bin/something", arguments [something, -Dthis=that, -I., source.c, -o,
source.c.o] and working directory /home/user, under the configured compiler
with flags_to_remove [-I.] and flags_to_add [-Wall], is recognized as a
Compile with flags [-Dthis=that, -o, source.c.o, -Wall], sources [source.c]
and no output, and that Compile expands to exactly one entry with directory
/home/user, file /home/user/source.c, arguments [/usr/bin/something,
-Dthis=that, -o, source.c.o, -Wall, source.c] and no output. -/
theorem example_scenario_end_to_end :
    Configured.recognize cfgC1 exC1 = .Recognized (.Ok (.Compiler callC1)) ∧
    tryFromCompilerCall callC1 = .Ok [entC1] := by
  decide

/-- C2 counterexample: with flags_to_remove containing "bad.c", the execution
[cc, bad.c] has a classifiable source argument, yet recognition returns the
source-not-found failure instead of a Compile keeping that source — an
argument on the flags_to_remove list is dropped even when it is classifiable
as a source file. -/
theorem sources_exact_claim_refutation :
    Configured.recognize cfgC2 exC2 = .Recognized (.Err "source file is not found") ∧
    (exC2.arguments.drop 1).filter looks_like_a_source_file = ["bad.c"] := by
  decide

/-- C2 amended: for every execution whose executable equals the configured
compiler's and whose arguments after the first contain at least one argument
that survives flags_to_remove and is classified as a source file, recognition
returns a Compile whose sources are exactly the surviving classified
arguments, in order — arguments on the flags_to_remove list are removed even
when classifiable as source files. -/
theorem sources_exact_after_removal (config : CompilerToRecognize) (x : Execution)
    (hexe : x.executable = config.executable)
    (hsome : (x.arguments.drop 1).filter (keptSource config) ≠ []) :
    Configured.recognize config x = .Recognized (.Ok (.Compiler (.Compile
      x.working_dir x.executable
      ((x.arguments.drop 1).filter (keptFlag config) ++ config.flags_to_add)
      (((x.arguments.drop 1).filter (keptSource config)).map OsPath.ofString)
      none))) :=
  recognize_ok_of_source config x hexe hsome

/-- C2 witness: the amended statement at a concrete execution where the
removable source "bad.c" is dropped and "good.c" is kept. -/
theorem sources_exact_after_removal_witness :
    (exC2w.arguments.drop 1).filter (keptSource cfgC2) ≠ [] ∧
    Configured.recognize cfgC2 exC2w = .Recognized (.Ok (.Compiler (.Compile
      exC2w.working_dir exC2w.executable
      ((exC2w.arguments.drop 1).filter (keptFlag cfgC2) ++ cfgC2.flags_to_add)
      (((exC2w.arguments.drop 1).filter (keptSource cfgC2)).map OsPath.ofString)
      none))) :=
  ⟨by decide, sources_exact_after_removal cfgC2 exC2w (by decide) (by decide)⟩

/-- C6: an ExcludeOr returns NotRecognized for every execution whose
executable is on the deny list, whatever the delegate would return, and
returns exactly the delegate's result for every other execution. -/
theorem exclude_or_precedence (t : ExcludeOr) (x : Execution) :
    (x.executable ∈ t.excludes → t.recognize x = .NotRecognized) ∧
    (x.executable ∉ t.excludes → t.recognize x = t.or x) := by
  constructor
  · intro h
    simp [ExcludeOr.recognize, h]
  · intro h
    simp [ExcludeOr.recognize, h]

/-- C6 witness: the deny-list short circuit and the delegation, at concrete
executions over a delegate that recognizes everything. -/
theorem exclude_or_precedence_witness :
    exC6a.executable ∈ excludeC6.excludes ∧
    excludeC6.recognize exC6a = .NotRecognized ∧
    excludeC6.recognize exC6b = excludeC6.or exC6b :=
  ⟨by decide,
   (exclude_or_precedence excludeC6 exC6a).1 (by decide),
   (exclude_or_precedence excludeC6 exC6b).2 (by decide)⟩

/-- C7: for every execution whose executable equals the configured compiler's
but whose arguments after the first contain no argument that survives
flags_to_remove and is classified as a source file, recognition returns the
source-not-found recognition failure — never NotRecognized and never a
Compile. -/
theorem configured_no_source_failure (config : CompilerToRecognize) (x : Execution)
    (hexe : x.executable = config.executable)
    (hnone : (x.arguments.drop 1).filter (keptSource config) = []) :
    Configured.recognize config x = .Recognized (.Err "source file is not found") :=
  recognize_err_of_no_source config x hexe hnone

/-- C7 witness: the no-source failure at the concrete execution
[something, --help]. -/
theorem configured_no_source_failure_witness :
    (exC7.arguments.drop 1).filter (keptSource cfgC7) = [] ∧
    Configured.recognize cfgC7 exC7 = .Recognized (.Err "source file is not found") :=
  ⟨by decide, configured_no_source_failure cfgC7 exC7 (by decide) (by decide)⟩

/-- C10: the source-file classifier rejects every string that begins with a
slash, and consequently an execution matching a configured compiler in which
every argument after the first begins with a dash or a slash — for example
when all sources are given as absolute unix paths — is recognized as the
source-not-found failure rather than a Compile. -/
theorem slash_arguments_not_recognized :
    (∀ s : String, strStartsWith s '/' = true → looks_like_a_source_file s = false) ∧
    ∀ (config : CompilerToRecognize) (x : Execution),
      x.executable = config.executable →
      (∀ a ∈ x.arguments.drop 1,
        strStartsWith a '-' = true ∨ strStartsWith a '/' = true) →
      Configured.recognize config x = .Recognized (.Err "source file is not found") := by
  constructor
  · intro s h
    by_cases h1 : strStartsWith s '-' <;> simp [looks_like_a_source_file, h1, h]
  · intro config x hexe hargs
    apply recognize_err_of_no_source config x hexe
    rw [List.filter_eq_nil_iff]
    intro a ha
    rcases hargs a ha with h | h
    · simp [keptSource, looks_like_a_source_file, h]
    · by_cases h1 : strStartsWith a '-' <;>
        simp [keptSource, looks_like_a_source_file, h1, h]

/-- C10 witness: the classifier result on the absolute path /tmp/source1.c
and the recognition failure on a matching execution whose arguments are all
dash- or slash-led. -/
theorem slash_arguments_not_recognized_witness :
    looks_like_a_source_file "/tmp/source1.c" = false ∧
    Configured.recognize cfgC10 exC10 = .Recognized (.Err "source file is not found") :=
  ⟨slash_arguments_not_recognized.1 "/tmp/source1.c" (by decide),
   slash_arguments_not_recognized.2 cfgC10 exC10 (by decide) (by decide)⟩

/-- C3: the content filter combines the duplicate criterion and the
path-inclusion criterion with logical AND over the entry stream: the entry at
each position passes iff its duplicate key was not produced by any earlier
entry and the path-inclusion predicate (include list, exclude list, optional
existence check) accepts its file. -/
theorem content_filter_conjunction (cfg : Content) (oracle : OsPath → Bool)
    (es : List Entry) :
    ∀ i, i < es.length →
      ((contentDecisions cfg oracle es).getD i false = true ↔
        (cfg.policy.hash (es.getD i defaultEntry)
            ∉ (es.take i).map cfg.policy.hash ∧
         pathInclusionPass cfg oracle (es.getD i defaultEntry) = true)) := by
  intro i hi
  have h := contentDecisionsFrom_spec cfg oracle es [] i hi
  simpa using h

/-- C3 witness: an entry under the include path, outside the exclude path and
reported existing passes a fresh run of the combined filter. -/
theorem content_filter_conjunction_witness :
    (0 < [entC3].length) ∧
    (contentDecisions cfgC3 oracleTrue [entC3]).getD 0 false = true :=
  ⟨by decide,
   (content_filter_conjunction cfgC3 oracleTrue [entC3] 0 (by decide)).mpr
     ⟨by decide, by decide⟩⟩

/-- C4 counterexample: expanding the repository's own multi-source example,
the relative source "../source2.c" under working directory /home/user yields
the file /home/source2.c — the parent component is resolved away — which is
not the plain textual join of the working directory and the relative path
demanded by the claim. -/
theorem path_resolution_claim_refutation :
    tryFromCompilerCall callC4 = .Ok [entC4a, entC4b] ∧
    (OsPath.ofString "../source2.c").isAbsolute = false ∧
    entC4b.file ≠ specJoinedPath (OsPath.ofString "/home/user")
      (OsPath.ofString "../source2.c") := by
  decide

/-- C4 amended: in entry expansion each entry's file is its source resolved
against the working directory with lexical normalization (dot and dot-dot
components resolved), the output is resolved the same way and the directory
is the working directory unchanged; for a relative source without parent
components the resolution is exactly the working directory joined with the
relative path, and an absolute source without parent components is returned
unchanged. -/
theorem path_resolution_normalized (wd c : OsPath) (fl : List String)
    (ss : List OsPath) (out : Option OsPath) (es : List Entry)
    (h : tryFromCompilerCall (.Compile wd c fl ss out) = .Ok es) :
    (∀ i, i < ss.length →
      (es.getD i defaultEntry).file = into_abspath (ss.getD i OsPath.empty) wd ∧
      (es.getD i defaultEntry).directory = wd ∧
      (es.getD i defaultEntry).output = into_abspath_opt out wd) ∧
    (∀ p : OsPath, p.isAbsolute = true → p.text = renderAbsolute p.components →
      (∀ comp ∈ p.components, comp ≠ "..") →
      into_abspath p wd = p) ∧
    (∀ p : OsPath, p.isAbsolute = false → p.text = joinComps p.components →
      p.components ≠ [] → (∀ comp ∈ p.components, comp ≠ "..") →
      wd.text = renderAbsolute wd.components → wd.components ≠ [] →
      (∀ comp ∈ wd.components, comp ≠ "..") →
      into_abspath p wd = specJoinedPath wd p) := by
  obtain ⟨hlen, hget⟩ := tryFrom_ok_spec wd c fl ss out es h
  refine ⟨?_, ?_, ?_⟩
  · intro i hi
    rw [hget i hi]
    exact ⟨rfl, rfl, rfl⟩
  · intro p habs htext hnp
    exact into_abspath_clean_absolute p wd habs htext hnp
  · intro p hrel htext hpne hnp hwtext hwne hnw
    exact into_abspath_clean_relative p wd hrel htext hpne hnp hwtext hwne hnw

/-- C4 witness: on the two-source example the second entry's file is the
resolution of its relative source, a parent-free relative source resolves to
the plain join, and a parent-free absolute source is kept unchanged. -/
theorem path_resolution_normalized_witness :
    entC4b.file = into_abspath (OsPath.ofString "../source2.c")
      (OsPath.ofString "/home/user") ∧
    into_abspath (OsPath.ofString "source.c") (OsPath.ofString "/home/user")
      = specJoinedPath (OsPath.ofString "/home/user") (OsPath.ofString "source.c") ∧
    into_abspath (OsPath.ofString "/tmp/source1.c") (OsPath.ofString "/home/user")
      = OsPath.ofString "/tmp/source1.c" :=
  ⟨((path_resolution_normalized (OsPath.ofString "/home/user")
      (OsPath.ofString "clang") ["-Wall"]
      [OsPath.ofString "/tmp/source1.c", OsPath.ofString "../source2.c"] none
      [entC4a, entC4b] (by decide)).1 1 (by decide)).1,
   (path_resolution_normalized (OsPath.ofString "/home/user")
      (OsPath.ofString "clang") ["-Wall"]
      [OsPath.ofString "/tmp/source1.c", OsPath.ofString "../source2.c"] none
      [entC4a, entC4b] (by decide)).2.2 (OsPath.ofString "source.c")
      (by decide) (by decide) (by decide) (by decide) (by decide) (by decide) (by decide),
   (path_resolution_normalized (OsPath.ofString "/home/user")
      (OsPath.ofString "clang") ["-Wall"]
      [OsPath.ofString "/tmp/source1.c", OsPath.ofString "../source2.c"] none
      [entC4a, entC4b] (by decide)).2.1 (OsPath.ofString "/tmp/source1.c")
      (by decide) (by decide) (by decide)⟩

/-- C5: the duplicate filter is stateful over one run: an entry passes iff
its key (the fields selected by the active policy) was not produced by any
earlier evaluated entry, at most one entry per key is ever retained, feeding
the same entry twice retains exactly one copy, and feeding two entries whose
selected fields agree — however the other fields differ — retains exactly the
first. -/
theorem duplicate_filter_at_most_once (p : DuplicateFilterFields) (es : List Entry) :
    (∀ i, i < es.length →
      ((dupDecisions p es).getD i false = true ↔
        p.hash (es.getD i defaultEntry) ∉ (es.take i).map p.hash)) ∧
    (∀ k : DupKey,
      (dupRetained p es).countP (fun e => decide (p.hash e = k)) ≤ 1) ∧
    (∀ e : Entry, dupRetained p [e, e] = [e]) ∧
    (∀ e₁ e₂ : Entry, p.hash e₁ = p.hash e₂ → dupRetained p [e₁, e₂] = [e₁]) := by
  refine ⟨?_, ?_, ?_, ?_⟩
  · intro i hi
    have h := dupDecisionsFrom_spec p es [] i hi
    simpa using h
  · intro k
    exact countP_le_one_of_nodup_map p.hash k (dupRetained p es)
      (dupRetainedFrom_nodup p es []).1
  · intro e
    simp [dupRetained, dupRetainedFrom]
  · intro e₁ e₂ h
    simp [dupRetained, dupRetainedFrom, h]

/-- C5 witness: under the file-only policy, two entries with the same file
but different arguments keep exactly the first. -/
theorem duplicate_filter_at_most_once_witness :
    DuplicateFilterFields.FileOnly.hash entC5a
      = DuplicateFilterFields.FileOnly.hash entC5b ∧
    dupRetained DuplicateFilterFields.FileOnly [entC5a, entC5b] = [entC5a] :=
  ⟨by decide,
   (duplicate_filter_at_most_once DuplicateFilterFields.FileOnly
     [entC5a, entC5b]).2.2.2 entC5a entC5b (by decide)⟩

/-- C8 counterexample: a Compile naming the same source twice expands to two
entries with the same file, so the entries of one expansion do not always
carry pairwise distinct files. -/
theorem fanout_distinct_claim_refutation :
    tryFromCompilerCall callC8 = .Ok [entC8, entC8] ∧
    ¬ ([entC8, entC8].map Entry.file).Nodup := by
  decide

/-- C8 amended: expansion is fan-out exact: a Compile with N sources converts
on success to exactly N entries, one per source in order, each with the file
determined by its own source (distinct whenever the resolved sources are
distinct), identical directory, an identical argument head — the compiler,
the flags, and the -o/output pair when an output is present — followed by the
entry's original source text, and identical output; Query and Preprocess
convert to the empty sequence successfully. -/
theorem expansion_fanout_exact (wd c : OsPath) (fl : List String)
    (ss : List OsPath) (out : Option OsPath) (es : List Entry)
    (h : tryFromCompilerCall (.Compile wd c fl ss out) = .Ok es) :
    es.length = ss.length ∧
    (∀ i, i < ss.length →
      (es.getD i defaultEntry).arguments
        = sharedArgs c fl out ++ [(ss.getD i OsPath.empty).text] ∧
      (es.getD i defaultEntry).directory = wd ∧
      (es.getD i defaultEntry).output = into_abspath_opt out wd ∧
      (es.getD i defaultEntry).file = into_abspath (ss.getD i OsPath.empty) wd) ∧
    tryFromCompilerCall .Query = .Ok [] ∧
    tryFromCompilerCall .Preprocess = .Ok [] := by
  obtain ⟨hlen, hget⟩ := tryFrom_ok_spec wd c fl ss out es h
  refine ⟨hlen, ?_, by decide, by decide⟩
  intro i hi
  rw [hget i hi]
  exact ⟨rfl, rfl, rfl, rfl⟩

/-- C8 witness: the two-source compile with an output expands to two entries,
and the second entry's arguments are the shared head followed by its own
source text. -/
theorem expansion_fanout_exact_witness :
    [entC8w0, entC8w1].length
      = [OsPath.ofString "a.c", OsPath.ofString "b.c"].length ∧
    entC8w1.arguments
      = sharedArgs (OsPath.ofString "cc") ["-O1"] (some (OsPath.ofString "out.o"))
          ++ [(OsPath.ofString "b.c").text] :=
  ⟨(expansion_fanout_exact (OsPath.ofString "/home") (OsPath.ofString "cc") ["-O1"]
      [OsPath.ofString "a.c", OsPath.ofString "b.c"] (some (OsPath.ofString "out.o"))
      [entC8w0, entC8w1] (by decide)).1,
   ((expansion_fanout_exact (OsPath.ofString "/home") (OsPath.ofString "cc") ["-O1"]
      [OsPath.ofString "a.c", OsPath.ofString "b.c"] (some (OsPath.ofString "out.o"))
      [entC8w0, entC8w1] (by decide)).2.1 1 (by decide)).1⟩

/-- C9 counterexample: a Compile with no sources and a compiler path that is
not representable as text converts to Ok with no entries — no conversion is
attempted, so no error is returned despite the non-representable involved
path. -/
theorem conversion_error_claim_refutation :
    tryFromCompilerCall callC9 = .Ok [] ∧ badCompilerC9.utf8 = false := by
  decide

/-- C9 amended: expansion of a Compile is all-or-nothing over the performed
conversions: if any source path is not representable as text, or the source
list is non-empty and the compiler or the output path is not representable,
the whole conversion returns the encoding error and produces no entries at
all — entries for the other, convertible sources are not produced either; a
Compile with no sources succeeds with no entries without attempting any
conversion. -/
theorem conversion_all_or_nothing (wd c : OsPath) (fl : List String)
    (out : Option OsPath) :
    ∀ ss : List OsPath,
      ((∃ s ∈ ss, s.utf8 = false) ∨
       (ss ≠ [] ∧ (c.utf8 = false ∨ ∃ o, out = some o ∧ o.utf8 = false))) →
      tryFromCompilerCall (.Compile wd c fl ss out) = .Err ConvError.OsString := by
  intro ss
  induction ss with
  | nil =>
    rintro (⟨s, hs, _⟩ | ⟨hne, _⟩)
    · simp at hs
    · exact absurd rfl hne
  | cons s0 rest ih =>
    intro h
    show collectResults (entryFor wd c fl out) (s0 :: rest) = .Err ConvError.OsString
    rcases h with ⟨s, hsmem, hsbad⟩ | ⟨_, hbad⟩
    · rcases List.mem_cons.mp hsmem with rfl | hmemrest
      · have he := entryFor_err wd c fl out s (Or.inr (Or.inr hsbad))
        simp [collectResults, he]
      · rcases entryFor_cases wd c fl out s0 with ⟨e, he⟩ | he
        · have hrest : collectResults (entryFor wd c fl out) rest
              = .Err ConvError.OsString :=
            ih (Or.inl ⟨s, hmemrest, hsbad⟩)
          simp [collectResults, he, hrest]
        · simp [collectResults, he]
    · have he := entryFor_err wd c fl out s0
        (hbad.elim Or.inl (fun hx => Or.inr (Or.inl hx)))
      simp [collectResults, he]

/-- C9 witness: one convertible source followed by a non-representable one
makes the whole conversion fail with the encoding error, producing no
entries. -/
theorem conversion_all_or_nothing_witness :
    badSourceC9 ∈ sourcesC9 ∧
    tryFromCompilerCall (.Compile (OsPath.ofString "/home") (OsPath.ofString "cc")
      [] sourcesC9 none) = .Err ConvError.OsString :=
  ⟨by decide,
   conversion_all_or_nothing (OsPath.ofString "/home") (OsPath.ofString "cc") [] none
     sourcesC9 (Or.inl ⟨badSourceC9, by decide, by decide⟩)⟩

end Citnames
